/-
  Verification of the serverless image pipeline (src/lambda/image_utils.py,
  src/lambda/handler.py) against its natural-language specification.

  The Python source is shallowly embedded: strings are `List Char`, Python
  ints are `ℤ` (unbounded, as in Python), IEEE-754 double arithmetic is
  modelled exactly by integer round-to-nearest-even rounding onto a
  53-bit significand (normal range only, which covers all image
  dimensions), S3 / Pillow side effects are injected through an
  environment record
  mirroring how the code injects `s3_client`, and every run additionally
  returns a trace of observable events (log lines, uploads) so that
  temporal claims can be stated.
-/
import Mathlib

/-! ## Python string primitives -/

/-- Python `str.split(sep)` for a single-character separator `sep`
(as used by `sizes_str.split(",")` and `filename.split(".")`).
`"".split(sep) = [""]`, and separators at the ends produce empty pieces,
exactly as in Python. -/
def splitC (sep : Char) : List Char → List (List Char)
  | [] => [[]]
  | c :: rest =>
    match splitC sep rest with
    | [] => [[]]
    | t :: ts => if c = sep then [] :: t :: ts else (c :: t) :: ts

/-- Python `str.strip()`: drop whitespace from both ends.
(The model covers ASCII whitespace; the tokens the pipeline deals in are
ASCII size numbers.) -/
def stripC (s : List Char) : List Char :=
  ((s.dropWhile Char.isWhitespace).reverse.dropWhile Char.isWhitespace).reverse

/-- Digit run of Python `int(str)`: ASCII digits, with single underscores
allowed between digits (Python 3.6+ numeric literals syntax). -/
def pyDigitsGo : ℕ → List Char → Option ℕ
  | acc, [] => some acc
  | acc, '_' :: c :: rest =>
      if c.isDigit then pyDigitsGo (acc * 10 + (c.toNat - 48)) rest else none
  | _, ['_'] => none
  | acc, c :: rest =>
      if c.isDigit then pyDigitsGo (acc * 10 + (c.toNat - 48)) rest else none

/-- Nonempty digit run; first character must be a digit (no leading underscore). -/
def pyDigits : List Char → Option ℕ
  | [] => none
  | c :: rest => if c.isDigit then pyDigitsGo (c.toNat - 48) rest else none

/-- Python `int(s)` on a string: surrounding whitespace is stripped, an
optional single sign is allowed, then a digit run; anything else raises
`ValueError`, modelled as `none`. -/
def pyInt (s : List Char) : Option ℤ :=
  match stripC s with
  | '+' :: rest => (pyDigits rest).map (fun n => (n : ℤ))
  | '-' :: rest => (pyDigits rest).map (fun n => -(n : ℤ))
  | t => (pyDigits t).map (fun n => (n : ℤ))

/-! ## `parse_sizes` (image_utils.py lines 24-48) -/

/-- The stripped comma-separated tokens of the sizes string:
`sizes_str.split(",")` with each part `.strip()`-ped. -/
def pyTokens (s : List Char) : List (List Char) :=
  (splitC ',' s).map stripC

/-- One loop iteration of `parse_sizes` on a stripped token: empty tokens
are skipped (`if not part: continue`), `int(part)` failures are logged and
skipped (`except ValueError`), and only `size > 0` is retained. -/
def validSize (t : List Char) : Option ℤ :=
  if t.isEmpty then none
  else
    match pyInt t with
    | some n => if 0 < n then some n else none
    | none => none

/-- Python `sorted(set(l))` for a list of ints: the ascending enumeration
of the distinct elements. -/
def pySortedSet (l : List ℤ) : List ℤ :=
  l.dedup.insertionSort (· ≤ ·)

/-- `parse_sizes` (image_utils.py lines 24-48): collect the valid sizes of
each token, then `sorted(set(sizes))`. -/
def parse_sizes (s : List Char) : List ℤ :=
  pySortedSet ((pyTokens s).filterMap validSize)

/-! ## `derive_output_key` (image_utils.py lines 157-181) -/

/-- The `_{width}w.webp` tail appended by `derive_output_key`
(`f"{base}_{width}w.webp"`). -/
def thumbSuffix (width : ℕ) : List Char :=
  '_' :: (Nat.repr width).data ++ "w.webp".data

/-- `derive_output_key` (image_utils.py lines 157-181).
`src_key.rsplit("/", 1)` splits at the last slash: the filename is the
run after the last `'/'` (computed here on the reversed list) and the
directory part is everything before it.  `filename.split(".")[0]`
(`base, *_ = filename.split(".")`) is the run before the first dot. -/
def derive_output_key (src_key : List Char) (width : ℕ) : List Char :=
  if '/' ∈ src_key then
    let fileRev := src_key.reverse.takeWhile (fun c => c ≠ '/')
    let dirPart := (src_key.reverse.drop (fileRev.length + 1)).reverse
    let base := fileRev.reverse.takeWhile (fun c => c ≠ '.')
    dirPart ++ '/' :: (base ++ thumbSuffix width)
  else
    src_key.takeWhile (fun c => c ≠ '.') ++ thumbSuffix width

/-! ## IEEE-754 double model

`process_image` computes `ratio = width / float(img.width)` and
`height = int(img.height * ratio)` in Python floats, i.e. IEEE-754
binary64 with round-to-nearest-even.  The int-to-float conversions are
exact for any realistic dimension, and both the division and the
multiplication are correctly rounded, so each is exactly "round the exact
rational result to the nearest representable double".  We model that
rounding with integer arithmetic: a double is a pair `⟨m, e⟩` denoting
`m · 2^(e-52)` (mantissa and binade exponent; normal positive range only,
which covers every image dimension — no subnormals, no overflow). -/

/-- Fuelled upward binade search: for `b ≤ a`, the `e ≥ 0` with
`b·2^e ≤ a < b·2^(e+1)`. -/
def binUp : ℕ → ℕ → ℕ → ℕ → ℕ
  | 0, _, _, acc => acc
  | fuel + 1, a, b, acc => if a < 2 * b then acc else binUp fuel a (2 * b) (acc + 1)

/-- Fuelled downward binade search: for `a < b`, the least `n` with
`b ≤ a·2^n` (the binade exponent is `-n`). -/
def binDown : ℕ → ℕ → ℕ → ℕ → ℕ
  | 0, _, _, acc => acc
  | fuel + 1, a, b, acc => if b ≤ a then acc else binDown fuel (2 * a) b (acc + 1)

/-- Binade exponent of the positive fraction `a / b`: the `e` with
`2^e ≤ a/b < 2^(e+1)`.  Fuel `a + b` dominates `|e|`. -/
def binade (a b : ℕ) : ℤ :=
  if b ≤ a then (binUp (a + b) a b 0 : ℤ) else -(binDown (a + b) a b 0 : ℤ)

/-- The exact rational value `m · 2^(e-52)` of a modelled double. -/
structure Dy where
  m : ℕ
  e : ℤ
deriving DecidableEq

/-- Round the positive fraction `a / b` to the nearest IEEE-754 binary64
value (round-to-nearest, ties to even): scale `a/b` into `[2^52, 2^53)`,
take the integer quotient, and round on the remainder. -/
def roundFrac (a b : ℕ) : Dy :=
  if a = 0 ∨ b = 0 then ⟨0, 0⟩
  else
    let e := binade a b
    let num := if 0 ≤ 52 - e then a * 2 ^ (52 - e).toNat else a
    let den := if 0 ≤ 52 - e then b else b * 2 ^ (e - 52).toNat
    let m0 := num / den
    let r := num % den
    let m := if 2 * r < den then m0
             else if den < 2 * r then m0 + 1
             else if m0 % 2 = 0 then m0 else m0 + 1
    ⟨m, e⟩

/-- `ratio = width / float(img.width)` (image_utils.py line 124):
a correctly rounded double division. -/
def pyRatioDy (origW target : ℕ) : Dy :=
  roundFrac target origW

/-- `h * d` for a nonnegative int `h` and a double `d`: the exact product
`h · m · 2^(e-52)` re-rounded to a double, as IEEE multiplication does. -/
def mulRound (h : ℕ) (d : Dy) : Dy :=
  if 0 ≤ d.e - 52 then roundFrac (h * d.m * 2 ^ (d.e - 52).toNat) 1
  else roundFrac (h * d.m) (2 ^ (52 - d.e).toNat)

/-- `int(x)` of a nonnegative double: truncation = floor. -/
def floorDy (d : Dy) : ℕ :=
  if 0 ≤ d.e - 52 then d.m * 2 ^ (d.e - 52).toNat
  else d.m / 2 ^ (52 - d.e).toNat

/-- `height = int(img.height * ratio)` (image_utils.py lines 124-125):
the height `process_image` actually computes for a resize of an
`origW × origH` image to target width `target`. -/
def pyHeightF (origW origH target : ℕ) : ℕ :=
  floorDy (mulRound origH (pyRatioDy origW target))

/-- Modelled from the spec: "height == floor(originalHeight * w / W)
exactly, where the quotient is the exact rational w / W" — the height the
spec's exact-rational sentence prescribes, for comparison with the
code's float-based `pyHeightF`. -/
def specHeight (origW origH target : ℕ) : ℕ :=
  origH * target / origW

/-! ## quality coercion (image_utils.py lines 108-112) -/

/-- `int(quality)` with fallback: `quality_int = int(quality)` and on any
exception `quality_int = 85`.  (No range check is performed.) -/
def pyQuality (q : List Char) : ℤ :=
  match pyInt q with
  | some n => n
  | none => 85

/-! ## `process_image` (image_utils.py lines 51-154)

S3 and Pillow are external collaborators; the code injects `s3_client`
and calls Pillow's `Image.open` / `resize` / `save`.  We inject all of
them through an environment record over an abstract type `B` of byte
buffers.  A run returns the list of observable events (skipped widths and
attempted uploads) next to its Python result (`return` value or raised
exception, the latter modelled as `Except.error` carrying the error
text). -/

/-- A decoded Pillow image: `img.width` / `img.height`. -/
structure PyImg where
  width : ℕ
  height : ℕ
deriving DecidableEq

/-- The dict `process_image` returns (image_utils.py lines 149-154).
`duration_ms` is wall-clock time, outside the functional model, so it is
not a field here. -/
structure PyResult where
  sizes : List ℤ
  input_size : ℕ
  output_size : ℕ
deriving DecidableEq

/-- External collaborators of `process_image`: the injected `s3_client`
(`get_object` / `put_object`), Pillow decode (`Image.open`) and the
deterministic resize-then-`save` encoding pipeline.  Each fallible call
returns `Except` over the error text. -/
structure ImgEnv (B : Type) where
  len : B → ℕ
  getObject : (bucket key : List Char) → Except (List Char) B
  openImage : B → Except (List Char) PyImg
  encodeWebp : PyImg → (w h : ℕ) → (q : ℤ) → Except (List Char) B
  putObject : (bucket key : List Char) → B → Except (List Char) Unit

/-- Observable events of one `process_image` run: a skipped upscale
(image_utils.py lines 121-123) or an attempted `put_object` with the
derived key, requested width, computed height, encode quality and
outcome (lines 126-146). -/
inductive Evt where
  | skip (width : ℤ)
  | put (key : List Char) (width : ℤ) (height : ℕ) (quality : ℤ) (ok : Bool)
deriving DecidableEq

/-- The `for width in sizes:` loop of `process_image` (image_utils.py
lines 118-146), returning the events plus either the raised exception or
the accumulated `(output_size_total, generated_sizes)` contribution of
the remaining widths. -/
def procLoop {B : Type} (env : ImgEnv B) (object_key output_bucket : List Char)
    (img : PyImg) (q : ℤ) : List ℤ → List Evt × Except (List Char) (ℕ × List ℤ)
  | [] => ([], .ok (0, []))
  | w :: ws =>
    if (img.width : ℤ) ≤ w then
      -- `if img.width <= width: continue` — skip upscales
      let (t, r) := procLoop env object_key output_bucket img q ws
      (.skip w :: t, r)
    else
      let wn := w.toNat
      let h := pyHeightF img.width img.height wn
      match env.encodeWebp img wn h q with
      | .error e => ([], .error e)
      | .ok dat =>
        let key := derive_output_key object_key wn
        match env.putObject output_bucket key dat with
        | .ok _ =>
          let (t, r) := procLoop env object_key output_bucket img q ws
          (.put key w h q true :: t,
           match r with
           | .ok (total, gen) => .ok (env.len dat + total, w :: gen)
           | .error e => .error e)
        | .error e => ([.put key w h q false], .error e)

/-- `process_image` (image_utils.py lines 51-154): download, decode,
coerce the quality, parse the sizes, run the resize loop, and return the
result dict; any underlying error is re-raised. -/
def process_image {B : Type} (env : ImgEnv B)
    (input_bucket object_key output_bucket sizes_str quality : List Char) :
    List Evt × Except (List Char) PyResult :=
  match env.getObject input_bucket object_key with
  | .error e => ([], .error e)
  | .ok body =>
    match env.openImage body with
    | .error e => ([], .error e)
    | .ok img =>
      let q := pyQuality quality
      let (t, r) := procLoop env object_key output_bucket img q (parse_sizes sizes_str)
      (t, match r with
          | .ok (total, gen) =>
            .ok { sizes := gen, input_size := env.len body, output_size := total }
          | .error e => .error e)

/-- A concrete environment for witnesses and counterexamples: buffers are
`Unit`, every S3 call succeeds, every encoded buffer has 7 bytes, and
decoding yields a `W × H` image. -/
def mkEnv (W H : ℕ) : ImgEnv Unit where
  len := fun _ => 7
  getObject := fun _ _ => .ok ()
  openImage := fun _ => .ok ⟨W, H⟩
  encodeWebp := fun _ _ _ _ => .ok ()
  putObject := fun _ _ _ => .ok ()

/-- The widths whose upload was attempted and succeeded in a trace. -/
def okPutWidths (t : List Evt) : List ℤ :=
  t.filterMap fun e =>
    match e with
    | .put _ w _ _ true => some w
    | _ => none

/-! ## `lambda_handler` (handler.py lines 49-166)

The dispatcher iterates the event's records; the Object Processor it
invokes per record (`image_utils.process_image` applied to the module's
clients and configuration) and the SQS dead-letter publish are injected
as collaborators.  A run returns the list of structured log events the
code emits next to its Python result (`{"statusCode": 200}` or the
re-raised exception). -/

/-- One inbound S3 event record, reduced to the two fields the handler
reads: `record["s3"]["bucket"]["name"]` and `record["s3"]["object"]["key"]`
(`none` models any missing nesting, `dict.get` defaulting to `None`). -/
structure SRecord where
  bucket : Option (List Char)
  key : Option (List Char)

/-- Python truthiness test `not x` for an optional string: `None` and the
empty string are falsy (handler.py line 80, `if not bucket or not key`). -/
def falsyOpt : Option (List Char) → Bool
  | none => true
  | some s => s.isEmpty

/-- The dead-letter message body (handler.py lines 135-141):
`{"bucket": ..., "key": ..., "error": str(exc)}`. -/
structure FailureNotice where
  bucket : List Char
  key : List Char
  error : List Char
deriving DecidableEq

/-- External collaborators of the handler: the Object Processor call
(`image_utils.process_image` with the module-level clients and
configuration already applied) and `sqs_client.send_message`, plus the
`DLQ_URL` configuration value. -/
structure HEnv where
  process : (bucket key : List Char) → Except (List Char) PyResult
  dlqUrl : Option (List Char)
  sendMessage : (url : List Char) → FailureNotice → Except (List Char) Unit

/-- Structured log events of a handler run (handler.py lines 84, 87,
105-114, 118-127, 143-151, 153-162). -/
inductive HEvt where
  | malformed
  | start (bucket key : List Char)
  | complete (bucket key : List Char) (sizes : List ℤ)
  | errorLogged (bucket key : List Char) (err : List Char)
  | sentToDlq (notice : FailureNotice)
  | dlqFailed (notice : FailureNotice) (err : List Char)
deriving DecidableEq

/-- The `except` branch's dead-letter attempt (handler.py lines 131-162):
`if DLQ_URL:` (falsy for `None` and `""`), then a best-effort
`send_message` whose own failure is only logged. -/
def dlqEvts (env : HEnv) (b k e : List Char) : List HEvt :=
  match env.dlqUrl with
  | none => []
  | some url =>
    if url.isEmpty then []
    else
      match env.sendMessage url ⟨b, k, e⟩ with
      | .ok _ => [.sentToDlq ⟨b, k, e⟩]
      | .error e2 => [.dlqFailed ⟨b, k, e⟩ e2]

/-- `lambda_handler` (handler.py lines 49-166): iterate the records in
order; skip malformed ones with a logged warning; process the rest,
logging start/complete; on an exception log it, best-effort dead-letter,
and re-raise — which ends the loop, leaving later records unprocessed.
Returns `{"statusCode": 200}` (modelled as `200`) when the loop finishes. -/
def lambda_handler (env : HEnv) : List SRecord → List HEvt × Except (List Char) ℕ
  | [] => ([], .ok 200)
  | r :: rs =>
    match r.bucket, r.key with
    | some b, some k =>
      if b.isEmpty || k.isEmpty then
        let (t, res) := lambda_handler env rs
        (.malformed :: t, res)
      else
        match env.process b k with
        | .ok res =>
          let (t, rres) := lambda_handler env rs
          (.start b k :: .complete b k res.sizes :: t, rres)
        | .error e =>
          (.start b k :: .errorLogged b k e :: dlqEvts env b k e, .error e)
    | _, _ =>
      let (t, res) := lambda_handler env rs
      (.malformed :: t, res)

/-- A record is fatal for the dispatcher when it is well-formed and its
processing raises. -/
def stepFails (env : HEnv) (r : SRecord) : Prop :=
  ∃ b k e, r.bucket = some b ∧ r.key = some k ∧
    b.isEmpty = false ∧ k.isEmpty = false ∧ env.process b k = .error e

/-- A concrete handler environment for witnesses: processing always
succeeds with an empty result and the DLQ is configured and accepts. -/
def hEnvOk : HEnv where
  process := fun _ _ => .ok ⟨[], 0, 0⟩
  dlqUrl := some "https://sqs/q".data
  sendMessage := fun _ _ => .ok ()

/-- A concrete handler environment whose processing of key "bad.jpg"
raises and whose DLQ publish itself always fails. -/
def hEnvBad : HEnv where
  process := fun _ k => if k = "bad.jpg".data then .error "boom".data else .ok ⟨[], 0, 0⟩
  dlqUrl := some "https://sqs/q".data
  sendMessage := fun _ _ => .error "sqs down".data


/-! ## Theorems -/

theorem takeWhile_of_all {α : Type} (p : α → Bool) :
    ∀ (l : List α), (∀ a ∈ l, p a) → l.takeWhile p = l
  | [], _ => rfl
  | a :: l, h => by
    rw [List.takeWhile_cons_of_pos (h a (List.mem_cons_self a l)),
      takeWhile_of_all p l (fun x hx => h x (List.mem_cons_of_mem a hx))]

/-- C2: `derive_output_key` is a pure function of the source key and the
width; splitting the key as `p ++ "/" ++ f` with `f` slash-free (so the
`"/"` shown is the last slash), the result keeps the directory part `p`,
truncates `f` at its first dot, and appends `_{width}w.webp`; in
particular `derive_output_key "uploads/cat.jpg" 128 = "uploads/cat_128w.webp"`
and `derive_output_key "cat.tar.gz" 10 = "cat_10w.webp"`. -/
theorem C2_derive_output_key (p f : List Char) (w : ℕ) (hf : '/' ∉ f) :
    derive_output_key (p ++ '/' :: f) w
        = p ++ '/' :: (f.takeWhile (fun c => c ≠ '.') ++ thumbSuffix w)
      ∧ derive_output_key "uploads/cat.jpg".data 128 = "uploads/cat_128w.webp".data
      ∧ derive_output_key "cat.tar.gz".data 10 = "cat_10w.webp".data := by
  refine ⟨?_, by decide, by decide⟩
  have hmem : '/' ∈ p ++ '/' :: f :=
    List.mem_append_right p (List.mem_cons_self '/' f)
  have hall : ∀ c ∈ f.reverse, (fun c => decide (c ≠ '/')) c = true := by
    intro c hc
    rw [List.mem_reverse] at hc
    have hne : c ≠ '/' := fun h => hf (h ▸ hc)
    simp [hne]
  have hfile : (p ++ '/' :: f).reverse.takeWhile (fun c => decide (c ≠ '/'))
      = f.reverse := by
    rw [show (p ++ '/' :: f).reverse = f.reverse ++ '/' :: p.reverse by simp,
      List.takeWhile_append_of_pos hall,
      List.takeWhile_cons_of_neg (by simp)]
    simp
  have hdrop : (p ++ '/' :: f).reverse.drop (f.reverse.length + 1) = p.reverse := by
    rw [show (p ++ '/' :: f).reverse = (f.reverse ++ ['/']) ++ p.reverse by simp,
      List.drop_left' (by simp)]
  simp only [derive_output_key, if_pos hmem, hfile, hdrop, List.reverse_reverse]

/-- C10: `derive_output_key` is total; a final path segment with no dot is
kept whole (for a slash-free, dot-free key `f`, the result is
`f ++ "_{width}w.webp"`, e.g. `derive_output_key "cat" 128 = "cat_128w.webp"`),
and a final segment beginning with a dot yields an empty base name:
`derive_output_key "uploads/.hidden" 128 = "uploads/_128w.webp"`. -/
theorem C10_derive_output_key_total (f : List Char) (w : ℕ)
    (h1 : '/' ∉ f) (h2 : '.' ∉ f) :
    derive_output_key f w = f ++ thumbSuffix w
      ∧ derive_output_key "cat".data 128 = "cat_128w.webp".data
      ∧ derive_output_key "uploads/.hidden".data 128 = "uploads/_128w.webp".data := by
  refine ⟨?_, by decide, by decide⟩
  have hall : ∀ c ∈ f, (fun c => decide (c ≠ '.')) c = true := by
    intro c hc
    have hne : c ≠ '.' := fun h => h2 (h ▸ hc)
    simp [hne]
  simp only [derive_output_key, if_neg h1, takeWhile_of_all _ f hall]

theorem pySortedSet_sorted (l : List ℤ) : List.Sorted (· < ·) (pySortedSet l) := by
  have hs : List.Sorted (· ≤ ·) (pySortedSet l) := List.sorted_insertionSort _ _
  have hn : (pySortedSet l).Nodup :=
    (List.Perm.nodup_iff (List.perm_insertionSort _ _)).mpr (List.nodup_dedup l)
  exact (hs.and hn).imp fun h => lt_of_le_of_ne h.1 h.2

theorem mem_pySortedSet {x : ℤ} {l : List ℤ} : x ∈ pySortedSet l ↔ x ∈ l := by
  unfold pySortedSet
  rw [(List.perm_insertionSort _ _).mem_iff, List.mem_dedup]

theorem dedup_toFinset_eq (l : List ℤ) : l.dedup.toFinset = l.toFinset := by
  ext x
  simp [List.mem_dedup]

theorem pySortedSet_eq_of_toFinset_eq {l₁ l₂ : List ℤ} (h : l₁.toFinset = l₂.toFinset) :
    pySortedSet l₁ = pySortedSet l₂ := by
  apply List.eq_of_perm_of_sorted ?_ (List.sorted_insertionSort _ _)
    (List.sorted_insertionSort _ _)
  refine (List.perm_insertionSort _ _).trans (.trans ?_ (List.perm_insertionSort _ _).symm)
  exact List.perm_of_nodup_nodup_toFinset_eq (List.nodup_dedup l₁) (List.nodup_dedup l₂)
    (by rw [dedup_toFinset_eq, dedup_toFinset_eq, h])

theorem filterMap_toFinset_eq {α β : Type} [DecidableEq α] [DecidableEq β]
    (f : α → Option β) {l₁ l₂ : List α} (h : l₁.toFinset = l₂.toFinset) :
    (l₁.filterMap f).toFinset = (l₂.filterMap f).toFinset := by
  ext x
  simp only [List.mem_toFinset, List.mem_filterMap]
  constructor
  · rintro ⟨a, ha, hfa⟩
    refine ⟨a, ?_, hfa⟩
    have := List.mem_toFinset.mpr ha
    rw [h] at this
    exact List.mem_toFinset.mp this
  · rintro ⟨a, ha, hfa⟩
    refine ⟨a, ?_, hfa⟩
    have := List.mem_toFinset.mpr ha
    rw [← h] at this
    exact List.mem_toFinset.mp this

theorem validSize_pos {t : List Char} {x : ℤ} (h : validSize t = some x) : 0 < x := by
  unfold validSize at h
  split at h
  · exact absurd h (by simp)
  · split at h
    · split at h
      · injection h with h'
        subst h'
        assumption
      · exact absurd h (by simp)
    · exact absurd h (by simp)

/-- C3: for every input string, `parse_sizes` returns a strictly
ascending, duplicate-free list of strictly positive integers (it is total,
so it never raises); every output element comes from a token that parsed
to a positive int, so all malformed tokens are discarded; the output
depends only on the set of stripped tokens, so order and multiplicity of
tokens never matter; and an all-invalid input yields `[]`. -/
theorem C3_parse_sizes (s t : List Char) :
    List.Sorted (· < ·) (parse_sizes s)
      ∧ (∀ x ∈ parse_sizes s, 0 < x)
      ∧ (∀ x ∈ parse_sizes s, ∃ tok ∈ pyTokens s, validSize tok = some x)
      ∧ ((pyTokens s).toFinset = (pyTokens t).toFinset → parse_sizes s = parse_sizes t)
      ∧ parse_sizes "abc, -3, 0, ,12x".data = [] := by
  refine ⟨pySortedSet_sorted _, ?_, ?_, ?_, by decide⟩
  · intro x hx
    rw [parse_sizes, mem_pySortedSet, List.mem_filterMap] at hx
    obtain ⟨tok, _, htok⟩ := hx
    exact validSize_pos htok
  · intro x hx
    rw [parse_sizes, mem_pySortedSet, List.mem_filterMap] at hx
    exact hx
  · intro h
    unfold parse_sizes
    exact pySortedSet_eq_of_toFinset_eq (filterMap_toFinset_eq validSize h)

/-- Witness for C3 at concrete inputs: `"512, 128,128"` and `"128,512, 128"`
have the same token set (so the same output), and that output is
`[128, 512]` — sorted, positive, and from valid tokens. -/
theorem C3_parse_sizes_witness :
    parse_sizes "512, 128,128".data = parse_sizes "128,512, 128".data
      ∧ parse_sizes "512, 128,128".data = [128, 512] := by
  have h := C3_parse_sizes "512, 128,128".data "128,512, 128".data
  exact ⟨h.2.2.2.1 (by decide), by decide⟩

theorem procLoop_all_skip {B : Type} (env : ImgEnv B) (okey ob : List Char)
    (img : PyImg) (q : ℤ) :
    ∀ sizes : List ℤ, (∀ w ∈ sizes, (img.width : ℤ) ≤ w) →
      procLoop env okey ob img q sizes = (sizes.map .skip, .ok (0, [])) := by
  intro sizes
  induction sizes with
  | nil => intro _; rfl
  | cons w ws ih =>
    intro h
    simp only [procLoop, if_pos (h w (List.mem_cons_self w ws)),
      ih (fun x hx => h x (List.mem_cons_of_mem w hx)), List.map_cons]

theorem procLoop_ok {B : Type} (env : ImgEnv B) (okey ob : List Char)
    (img : PyImg) (q : ℤ) :
    ∀ (sizes : List ℤ) (total : ℕ) (gen : List ℤ),
      (procLoop env okey ob img q sizes).2 = .ok (total, gen) →
        gen = sizes.filter (fun w => decide (w < (img.width : ℤ)))
          ∧ okPutWidths (procLoop env okey ob img q sizes).1 = gen := by
  intro sizes
  induction sizes with
  | nil =>
    intro total gen h
    simp only [procLoop, Except.ok.injEq, Prod.mk.injEq] at h
    simp [procLoop, okPutWidths, ← h.2]
  | cons w ws ih =>
    intro total gen h
    by_cases hw : (img.width : ℤ) ≤ w
    · rcases hp : procLoop env okey ob img q ws with ⟨t', r'⟩
      simp only [procLoop, if_pos hw, hp] at h ⊢
      obtain ⟨h1, h2⟩ := ih total gen (by rw [hp]; exact h)
      have hnot : ¬ (w < (img.width : ℤ)) := not_lt.mpr hw
      rw [hp] at h2
      refine ⟨by simpa [List.filter_cons, hnot] using h1, ?_⟩
      simpa [okPutWidths] using h2
    · rcases henc : env.encodeWebp img w.toNat (pyHeightF img.width img.height w.toNat) q
        with e | dat
      · simp only [procLoop, if_neg hw, henc] at h
        exact absurd h (by simp)
      · rcases hput : env.putObject ob (derive_output_key okey w.toNat) dat with e | u
        · simp only [procLoop, if_neg hw, henc, hput] at h
          exact absurd h (by simp)
        · rcases hp : procLoop env okey ob img q ws with ⟨t', r'⟩
          simp only [procLoop, if_neg hw, henc, hput, hp] at h ⊢
          rcases r' with e | pr
          · exact absurd h (by simp)
          · obtain ⟨tot₁, gen₁⟩ := pr
            simp only [Except.ok.injEq, Prod.mk.injEq] at h
            obtain ⟨h1, h2⟩ := ih tot₁ gen₁ (by rw [hp])
            rw [hp] at h2
            have hlt : w < (img.width : ℤ) := lt_of_not_le hw
            constructor
            · rw [← h.2, List.filter_cons, if_pos (by simpa using hlt), h1]
            · simp only [okPutWidths, List.filterMap_cons] at h2 ⊢
              rw [h2, ← h.2]

theorem procLoop_put_inv {B : Type} (env : ImgEnv B) (okey ob : List Char)
    (img : PyImg) (q : ℤ) :
    ∀ (sizes : List ℤ), ∀ e ∈ (procLoop env okey ob img q sizes).1,
      (∃ w, e = .skip w ∧ (img.width : ℤ) ≤ w ∧ w ∈ sizes)
      ∨ (∃ w o, w ∈ sizes ∧ w < (img.width : ℤ)
          ∧ e = .put (derive_output_key okey w.toNat) w
              (pyHeightF img.width img.height w.toNat) q o) := by
  intro sizes
  induction sizes with
  | nil => intro e he; exact absurd he (by simp [procLoop])
  | cons w ws ih =>
    intro e he
    by_cases hw : (img.width : ℤ) ≤ w
    · rcases hp : procLoop env okey ob img q ws with ⟨t', r'⟩
      simp only [procLoop, if_pos hw, hp, List.mem_cons] at he
      rcases he with he | he
      · exact .inl ⟨w, he, hw, List.mem_cons_self w ws⟩
      · rcases ih e (by rw [hp]; exact he) with ⟨w', h1, h2, h3⟩ | ⟨w', o, h1, h2, h3⟩
        · exact .inl ⟨w', h1, h2, List.mem_cons_of_mem w h3⟩
        · exact .inr ⟨w', o, List.mem_cons_of_mem w h1, h2, h3⟩
    · have hlt : w < (img.width : ℤ) := lt_of_not_le hw
      rcases henc : env.encodeWebp img w.toNat (pyHeightF img.width img.height w.toNat) q
        with e' | dat
      · simp only [procLoop, if_neg hw, henc] at he
        exact absurd he (by simp)
      · rcases hput : env.putObject ob (derive_output_key okey w.toNat) dat with e' | u
        · simp only [procLoop, if_neg hw, henc, hput, List.mem_singleton] at he
          exact .inr ⟨w, false, List.mem_cons_self w ws, hlt, he⟩
        · rcases hp : procLoop env okey ob img q ws with ⟨t', r'⟩
          simp only [procLoop, if_neg hw, henc, hput, hp, List.mem_cons] at he
          rcases he with he | he
          · exact .inr ⟨w, true, List.mem_cons_self w ws, hlt, he⟩
          · rcases ih e (by rw [hp]; exact he) with ⟨w', h1, h2, h3⟩ | ⟨w', o, h1, h2, h3⟩
            · exact .inl ⟨w', h1, h2, List.mem_cons_of_mem w h3⟩
            · exact .inr ⟨w', o, List.mem_cons_of_mem w h1, h2, h3⟩

/-- C4: the system never upscales.  When the source decodes to `img`,
every parsed width `w` with `img.width ≤ w` is skipped, and when every
parsed width is at least the image width the whole run succeeds with an
empty width list and no upload at all: the trace is exactly the skip
events and the result is `ok` with `sizes = []` and zero output bytes. -/
theorem C4_no_upscale {B : Type} (env : ImgEnv B)
    (ib okey ob ss qs : List Char) (body : B) (img : PyImg)
    (hget : env.getObject ib okey = .ok body)
    (hopen : env.openImage body = .ok img)
    (hall : ∀ w ∈ parse_sizes ss, (img.width : ℤ) ≤ w) :
    process_image env ib okey ob ss qs
      = ((parse_sizes ss).map .skip, .ok ⟨[], env.len body, 0⟩) := by
  simp only [process_image, hget, hopen,
    procLoop_all_skip env okey ob img (pyQuality qs) (parse_sizes ss) hall]

/-- Witness for C4: the end-to-end scenario of the claim — size spec
`"50000"` against a 1024-wide image produces no derivative and succeeds
with an empty width list. -/
theorem C4_no_upscale_witness :
    process_image (mkEnv 1024 768) "in".data "cat.jpg".data "out".data
        "50000".data "85".data
      = ((parse_sizes "50000".data).map .skip, .ok ⟨[], 7, 0⟩) :=
  C4_no_upscale (mkEnv 1024 768) "in".data "cat.jpg".data "out".data
    "50000".data "85".data () ⟨1024, 768⟩ rfl rfl (by decide)

/-- C9: whenever `process_image` returns successfully, its `sizes` field
is exactly the parsed widths below the image width (hence a sublist of
the parsed size list, strictly ascending, duplicate-free, every element
below the source width) and coincides with the widths whose upload was
attempted and succeeded in the trace. -/
theorem C9_result_invariant {B : Type} (env : ImgEnv B)
    (ib okey ob ss qs : List Char) (body : B) (img : PyImg) (res : PyResult)
    (hget : env.getObject ib okey = .ok body)
    (hopen : env.openImage body = .ok img)
    (hok : (process_image env ib okey ob ss qs).2 = .ok res) :
    res.sizes = (parse_sizes ss).filter (fun w => decide (w < (img.width : ℤ)))
      ∧ List.Sorted (· < ·) res.sizes
      ∧ res.sizes.Sublist (parse_sizes ss)
      ∧ (∀ w ∈ res.sizes, w < (img.width : ℤ))
      ∧ okPutWidths (process_image env ib okey ob ss qs).1 = res.sizes := by
  rcases hp : procLoop env okey ob img (pyQuality qs) (parse_sizes ss) with ⟨t, r⟩
  simp only [process_image, hget, hopen, hp] at hok ⊢
  rcases r with e | pr
  · exact absurd hok (by simp)
  · obtain ⟨total, gen⟩ := pr
    simp only [Except.ok.injEq] at hok
    obtain ⟨h1, h2⟩ := procLoop_ok env okey ob img (pyQuality qs) (parse_sizes ss)
      total gen (by rw [hp])
    rw [hp] at h2
    have hsz : res.sizes = gen := by rw [← hok]
    have hfil : res.sizes = (parse_sizes ss).filter (fun w => decide (w < (img.width : ℤ))) :=
      hsz.trans h1
    refine ⟨hfil, ?_, ?_, ?_, by rw [h2, hsz]⟩
    · rw [hfil]
      exact (pySortedSet_sorted _).sublist (List.filter_sublist _)
    · rw [hfil]
      exact List.filter_sublist _
    · intro w hw
      rw [hfil] at hw
      simpa using List.of_mem_filter hw

/-- Witness for C9: a concrete successful run over a 1024-wide image with
size spec `"512,128,50000"`: the produced sizes are `[128, 512]`, a
filtered sublist of `[128, 512, 50000]`, matching the successful puts. -/
theorem C9_result_invariant_witness :
    (⟨[128, 512], 7, 14⟩ : PyResult).sizes
        = (parse_sizes "512,128,50000".data).filter (fun w => decide (w < (1024 : ℤ)))
      ∧ List.Sorted (· < ·) (⟨[128, 512], 7, 14⟩ : PyResult).sizes
      ∧ (⟨[128, 512], 7, 14⟩ : PyResult).sizes.Sublist (parse_sizes "512,128,50000".data)
      ∧ (∀ w ∈ (⟨[128, 512], 7, 14⟩ : PyResult).sizes, w < (1024 : ℤ))
      ∧ okPutWidths (process_image (mkEnv 1024 768) "in".data "cat.jpg".data "out".data
            "512,128,50000".data "85".data).1
          = (⟨[128, 512], 7, 14⟩ : PyResult).sizes :=
  C9_result_invariant (mkEnv 1024 768) "in".data "cat.jpg".data "out".data
    "512,128,50000".data "85".data () ⟨1024, 768⟩ ⟨[128, 512], 7, 14⟩ rfl rfl rfl

/-- C1 (amended): for a decoded `img` and every derivative the run
uploads, the height is `int(img.height * (width / float(img.width)))`
evaluated in IEEE-754 double precision (`pyHeightF`), and the width is
below the source width.  (The claim's exact-rational
`floor(H * w / W)` is refuted by `C1_height_counterexample`.) -/
theorem C1_amended_float_height {B : Type} (env : ImgEnv B)
    (ib okey ob ss qs : List Char) (body : B) (img : PyImg)
    (hget : env.getObject ib okey = .ok body)
    (hopen : env.openImage body = .ok img) :
    ∀ e ∈ (process_image env ib okey ob ss qs).1, ∀ key w h q o,
      e = .put key w h q o →
        h = pyHeightF img.width img.height w.toNat ∧ w < (img.width : ℤ) := by
  intro e he key w h q o hput
  rcases hp : procLoop env okey ob img (pyQuality qs) (parse_sizes ss) with ⟨t, r⟩
  simp only [process_image, hget, hopen, hp] at he
  rcases procLoop_put_inv env okey ob img (pyQuality qs) (parse_sizes ss) e
      (by rw [hp]; exact he) with ⟨w', h1, _, _⟩ | ⟨w', o', _, h2, h3⟩
  · rw [hput] at h1; exact absurd h1 (by simp)
  · rw [hput] at h3
    injection h3 with _ e2 e3
    subst e2
    exact ⟨e3.symm ▸ rfl, h2⟩

/-- Witness for C1 (amended): in a run over a 1024 × 768 image with size
spec `"128"`, the uploaded derivative's height 96 is the double-precision
height for width 128. -/
theorem C1_amended_float_height_witness :
    (96 : ℕ) = pyHeightF 1024 768 (128 : ℤ).toNat ∧ (128 : ℤ) < (1024 : ℤ) :=
  C1_amended_float_height (mkEnv 1024 768) "in".data "cat.jpg".data "out".data
    "128".data "85".data () ⟨1024, 768⟩ rfl rfl
    (.put "cat_128w.webp".data 128 96 85 true) (by decide)
    "cat_128w.webp".data 128 96 85 true rfl

/-- Counterexample to C1 as stated: for an 11 × 55 source image and
requested width 3 (3 < 11), the run uploads a derivative of height 14,
but the exact rational floor `⌊55 * 3 / 11⌋` is 15 — the code's
floating-point `height = int(img.height * (width / float(img.width)))`
loses one pixel row here. -/
theorem C1_height_counterexample :
    process_image (mkEnv 11 55) "in".data "img".data "out".data "3".data "85".data
        = ([.put "img_3w.webp".data 3 14 85 true], .ok ⟨[3], 7, 7⟩)
      ∧ specHeight 11 55 3 = 15
      ∧ (14 : ℕ) ≠ 15 := by
  refine ⟨?_, by decide, by decide⟩
  have h1 : (process_image (mkEnv 11 55) "in".data "img".data "out".data
      "3".data "85".data).1 = [.put "img_3w.webp".data 3 14 85 true] := by decide
  have h2 : (process_image (mkEnv 11 55) "in".data "img".data "out".data
      "3".data "85".data).2 = .ok ⟨[3], 7, 7⟩ := rfl
  calc process_image (mkEnv 11 55) "in".data "img".data "out".data "3".data "85".data
      = ((process_image (mkEnv 11 55) "in".data "img".data "out".data
          "3".data "85".data).1,
         (process_image (mkEnv 11 55) "in".data "img".data "out".data
          "3".data "85".data).2) := rfl
    _ = ([.put "img_3w.webp".data 3 14 85 true], .ok ⟨[3], 7, 7⟩) := by rw [h1, h2]

/-- C5 (amended): a quality string that does not parse as an int falls
back to the default 85, and a quality string that parses to `n` is used
as `n` — with no 1–100 range check (so in-range values are used, but
out-of-range values are used too; `C5_quality_counterexample` shows 500
being used).  Every uploaded derivative is encoded at exactly that
quality. -/
theorem C5_quality_coercion {B : Type} (env : ImgEnv B)
    (ib okey ob ss qs : List Char) :
    (pyInt qs = none → pyQuality qs = 85)
      ∧ (∀ n, pyInt qs = some n → pyQuality qs = n)
      ∧ (∀ e ∈ (process_image env ib okey ob ss qs).1, ∀ key w h q o,
          e = .put key w h q o → q = pyQuality qs) := by
  refine ⟨?_, ?_, ?_⟩
  · intro h; simp [pyQuality, h]
  · intro n h; simp [pyQuality, h]
  · intro e he key w h q o hput
    rcases hg : env.getObject ib okey with eg | body
    · simp only [process_image, hg] at he
      exact absurd he (by simp)
    · rcases ho : env.openImage body with eo | img
      · simp only [process_image, hg, ho] at he
        exact absurd he (by simp)
      · rcases hp : procLoop env okey ob img (pyQuality qs) (parse_sizes ss) with ⟨t, r⟩
        simp only [process_image, hg, ho, hp] at he
        rcases procLoop_put_inv env okey ob img (pyQuality qs) (parse_sizes ss) e
            (by rw [hp]; exact he) with ⟨w', h1, _, _⟩ | ⟨w', o', _, _, h3⟩
        · rw [hput] at h1; exact absurd h1 (by simp)
        · rw [hput] at h3
          cases h3
          rfl

/-- Witness for C5 (amended): quality `"90"` parses and is used as 90. -/
theorem C5_quality_coercion_witness : pyQuality "90".data = 90 :=
  (C5_quality_coercion (mkEnv 1024 768) "in".data "k".data "out".data
    "128".data "90".data).2.1 90 (by decide)

/-- Counterexample to C5 as stated: quality input `"500"` is outside
1–100, yet the effective encoding quality is 500, not the default 85:
the code only falls back on coercion failure and never range-checks. -/
theorem C5_quality_counterexample :
    pyQuality "500".data = 500
      ∧ (process_image (mkEnv 1024 768) "in".data "cat.jpg".data "out".data
           "128".data "500".data).1
          = [.put "cat_128w.webp".data 128 96 500 true]
      ∧ (500 : ℤ) ≠ 85 := by
  refine ⟨by decide, by decide, by decide⟩

/-- Witness for C2 at `p = "uploads"`, `f = "cat.jpg"`, width 128. -/
theorem C2_derive_output_key_witness :
    derive_output_key ("uploads".data ++ '/' :: "cat.jpg".data) 128
        = "uploads".data
            ++ '/' :: ("cat.jpg".data.takeWhile (fun c => c ≠ '.') ++ thumbSuffix 128)
      ∧ derive_output_key "uploads/cat.jpg".data 128 = "uploads/cat_128w.webp".data
      ∧ derive_output_key "cat.tar.gz".data 10 = "cat_10w.webp".data :=
  C2_derive_output_key "uploads".data "cat.jpg".data 128 (by decide)

/-- Witness for C10 at the dot-free, slash-free key `"cat"`, width 128. -/
theorem C10_derive_output_key_total_witness :
    derive_output_key "cat".data 128 = "cat".data ++ thumbSuffix 128
      ∧ derive_output_key "cat".data 128 = "cat_128w.webp".data
      ∧ derive_output_key "uploads/.hidden".data 128 = "uploads/_128w.webp".data :=
  C10_derive_output_key_total "cat".data 128 (by decide) (by decide)

/-- C6: a record missing the bucket name or the object key (or carrying
an empty one — Python truthiness) is skipped with a logged warning and
without invoking the Object Processor; a batch of only such records
yields exactly one `malformed` log event per record — no `start` event,
so no processing — and returns statusCode 200 without raising. -/
theorem C6_malformed_skipped (env : HEnv) (recs : List SRecord)
    (h : ∀ r ∈ recs, falsyOpt r.bucket || falsyOpt r.key) :
    lambda_handler env recs = (recs.map fun _ => .malformed, .ok 200) := by
  induction recs with
  | nil => rfl
  | cons r rs ih =>
    have hr := h r (List.mem_cons_self r rs)
    have hrs := ih fun x hx => h x (List.mem_cons_of_mem r hx)
    obtain ⟨ob, okey⟩ := r
    rcases ob with _ | b
    · simp only [lambda_handler, hrs, List.map_cons]
    · rcases okey with _ | k
      · simp only [lambda_handler, hrs, List.map_cons]
      · simp only [falsyOpt, Bool.or_eq_true] at hr
        have he : (b.isEmpty || k.isEmpty) = true := by
          rcases hr with hr | hr <;> simp [hr]
        simp only [lambda_handler, he, if_true, hrs, List.map_cons]

/-- Witness for C6: a batch of two malformed records (missing bucket;
empty key) returns 200 with two warnings and no processing. -/
theorem C6_malformed_skipped_witness :
    lambda_handler hEnvOk
        [⟨none, some "k.jpg".data⟩, ⟨some "b".data, some []⟩]
      = ([.malformed, .malformed], .ok 200) :=
  C6_malformed_skipped hEnvOk
    [⟨none, some "k.jpg".data⟩, ⟨some "b".data, some []⟩] (by decide)

theorem handler_append_nofail (env : HEnv) :
    ∀ (pre rest : List SRecord), (∀ x ∈ pre, ¬ stepFails env x) →
      lambda_handler env (pre ++ rest)
        = ((lambda_handler env pre).1 ++ (lambda_handler env rest).1,
           (lambda_handler env rest).2) := by
  intro pre
  induction pre with
  | nil => intro rest _; simp [lambda_handler]
  | cons r pre' ih =>
    intro rest h
    have hr := h r (List.mem_cons_self r pre')
    have hpre' := ih rest fun x hx => h x (List.mem_cons_of_mem r hx)
    obtain ⟨ob, okey⟩ := r
    rcases ob with _ | b
    · simp only [List.cons_append, lambda_handler, List.append_eq, hpre']
    · rcases okey with _ | k
      · simp only [List.cons_append, lambda_handler, List.append_eq, hpre']
      · rcases hbe : (b.isEmpty || k.isEmpty) with _ | _
        · rcases hp : env.process b k with e | res
          · exact absurd ⟨b, k, e, rfl, rfl, by
                rcases Bool.or_eq_false_iff.mp hbe with ⟨h1, h2⟩; exact h1, by
                rcases Bool.or_eq_false_iff.mp hbe with ⟨h1, h2⟩; exact h2, hp⟩ hr
          · simp only [List.cons_append, lambda_handler, hbe, Bool.false_eq_true,
              if_false, hp, List.append_eq, hpre']
        · simp only [List.cons_append, lambda_handler, hbe, if_true, List.append_eq,
            hpre']

theorem handler_fail_step (env : HEnv) (r : SRecord) (post : List SRecord)
    (b k e : List Char) (hb : r.bucket = some b) (hk : r.key = some k)
    (hbe : b.isEmpty = false) (hke : k.isEmpty = false)
    (hfail : env.process b k = .error e) :
    lambda_handler env (r :: post)
      = (.start b k :: .errorLogged b k e :: dlqEvts env b k e, .error e) := by
  obtain ⟨ob, okey⟩ := r
  simp only at hb hk
  subst hb hk
  simp only [lambda_handler, hbe, hke, Bool.or_self, Bool.false_eq_true, if_false, hfail]

/-- C7: when a record's processing raises `e` (all earlier records being
non-fatal), the dispatcher re-raises exactly `e`; if a dead-letter
destination is configured (non-falsy `DLQ_URL`), the trace shows a
dead-letter attempt with the FailureNotice `{bucket, key, error}` —
either delivered or itself failed-and-logged; and the raised result does
not depend on the dead-letter publisher at all (any `sendMessage`
behaviour yields the same re-raised `e`). -/
theorem C7_reraise_original (env : HEnv) (pre post : List SRecord) (r : SRecord)
    (b k e : List Char) (hpre : ∀ x ∈ pre, ¬ stepFails env x)
    (hb : r.bucket = some b) (hk : r.key = some k)
    (hbe : b.isEmpty = false) (hke : k.isEmpty = false)
    (hfail : env.process b k = .error e) :
    (lambda_handler env (pre ++ r :: post)).2 = .error e
      ∧ (∀ url, env.dlqUrl = some url → url.isEmpty = false →
          (HEvt.sentToDlq ⟨b, k, e⟩) ∈ (lambda_handler env (pre ++ r :: post)).1
          ∨ ∃ e2, (HEvt.dlqFailed ⟨b, k, e⟩ e2) ∈ (lambda_handler env (pre ++ r :: post)).1)
      ∧ (∀ sm, (lambda_handler ⟨env.process, env.dlqUrl, sm⟩ (pre ++ r :: post)).2
          = .error e) := by
  have hstep := handler_fail_step env r post b k e hb hk hbe hke hfail
  have happ := handler_append_nofail env pre (r :: post) hpre
  refine ⟨by rw [happ, hstep], ?_, ?_⟩
  · intro url hurl hune
    have hmem : ∀ ev ∈ dlqEvts env b k e,
        ev ∈ (lambda_handler env (pre ++ r :: post)).1 := by
      intro ev hev
      rw [happ, hstep]
      exact List.mem_append_right _ (List.mem_cons_of_mem _ (List.mem_cons_of_mem _ hev))
    rcases hsm : env.sendMessage url ⟨b, k, e⟩ with e2 | u
    · refine .inr ⟨e2, hmem _ ?_⟩
      simp [dlqEvts, hurl, hune, hsm]
    · refine .inl (hmem _ ?_)
      simp [dlqEvts, hurl, hune, hsm]
  · intro sm
    have hpre' : ∀ x ∈ pre, ¬ stepFails (⟨env.process, env.dlqUrl, sm⟩ : HEnv) x := by
      intro x hx hxf
      exact hpre x hx (by
        obtain ⟨b', k', e', h1, h2, h3, h4, h5⟩ := hxf
        exact ⟨b', k', e', h1, h2, h3, h4, h5⟩)
    rw [handler_append_nofail ⟨env.process, env.dlqUrl, sm⟩ pre (r :: post) hpre',
      handler_fail_step ⟨env.process, env.dlqUrl, sm⟩ r post b k e hb hk hbe hke hfail]

/-- Witness for C7: a one-record batch whose processing raises "boom" in
an environment whose dead-letter publish always fails — the handler still
raises "boom" and the trace records the failed dead-letter attempt. -/
theorem C7_reraise_original_witness :
    (lambda_handler hEnvBad ([] ++ ⟨some "b".data, some "bad.jpg".data⟩ :: [])).2
        = .error "boom".data
      ∧ ((HEvt.sentToDlq ⟨"b".data, "bad.jpg".data, "boom".data⟩)
            ∈ (lambda_handler hEnvBad
                ([] ++ ⟨some "b".data, some "bad.jpg".data⟩ :: [])).1
          ∨ ∃ e2, (HEvt.dlqFailed ⟨"b".data, "bad.jpg".data, "boom".data⟩ e2)
            ∈ (lambda_handler hEnvBad
                ([] ++ ⟨some "b".data, some "bad.jpg".data⟩ :: [])).1) := by
  have h := C7_reraise_original hEnvBad [] [] ⟨some "b".data, some "bad.jpg".data⟩
    "b".data "bad.jpg".data "boom".data
    (fun x hx => absurd hx (List.not_mem_nil x)) rfl rfl rfl rfl
    (by simp [hEnvBad])
  exact ⟨h.1, h.2.1 "https://sqs/q".data rfl rfl⟩

/-- C8: the dispatcher walks the batch strictly in order and stops at the
first failing record: the whole run — trace and result — is the prefix's
trace followed by the failing record's events, and is identical for every
choice of the records placed after the failing one (so none of them is
ever processed). -/
theorem C8_early_abort (env : HEnv) (pre post post' : List SRecord) (r : SRecord)
    (b k e : List Char) (hpre : ∀ x ∈ pre, ¬ stepFails env x)
    (hb : r.bucket = some b) (hk : r.key = some k)
    (hbe : b.isEmpty = false) (hke : k.isEmpty = false)
    (hfail : env.process b k = .error e) :
    lambda_handler env (pre ++ r :: post) = lambda_handler env (pre ++ r :: post')
      ∧ lambda_handler env (pre ++ r :: post)
          = ((lambda_handler env pre).1
              ++ .start b k :: .errorLogged b k e :: dlqEvts env b k e, .error e) := by
  have h1 := handler_append_nofail env pre (r :: post) hpre
  have h2 := handler_append_nofail env pre (r :: post') hpre
  have hs1 := handler_fail_step env r post b k e hb hk hbe hke hfail
  have hs2 := handler_fail_step env r post' b k e hb hk hbe hke hfail
  constructor
  · rw [h1, h2, hs1, hs2]
  · rw [h1, hs1]

/-- Witness for C8: with a good record before and a well-formed record
after the failing one, the run equals the run with the suffix removed —
the trailing record is never processed. -/
theorem C8_early_abort_witness :
    lambda_handler hEnvBad
        ([⟨some "b".data, some "ok.jpg".data⟩]
          ++ ⟨some "b".data, some "bad.jpg".data⟩
            :: [⟨some "b".data, some "later.jpg".data⟩])
      = lambda_handler hEnvBad
          ([⟨some "b".data, some "ok.jpg".data⟩]
            ++ ⟨some "b".data, some "bad.jpg".data⟩ :: []) := by
  have h := C8_early_abort hEnvBad [⟨some "b".data, some "ok.jpg".data⟩]
    [⟨some "b".data, some "later.jpg".data⟩] [] ⟨some "b".data, some "bad.jpg".data⟩
    "b".data "bad.jpg".data "boom".data
    (by
      intro x hx hxf
      obtain ⟨b', k', e', h1, h2, h3, h4, h5⟩ := hxf
      rw [List.mem_singleton] at hx
      subst hx
      simp only at h1 h2
      cases h1; cases h2
      simp [hEnvBad] at h5)
    rfl rfl rfl rfl (by simp [hEnvBad])
  exact h.1
